import Mathlib

/-!
Verification of the similarity-heatmap core of the tender-tales platform.

The similarity engine itself (cosine scoring, statistics, rendering,
request validation) lives in the Python backend, which is not part of the
checked-in sources here; those parts are modelled from the specification
(doc comments say so explicitly).  The TypeScript client
(`ui/src/lib/earthengine.ts`) and the map page (`ui/src/app/map/page.tsx`)
are present and are embedded from the source.
-/

namespace TenderTales

/-! ## Similarity engine (modelled from the spec, section 4.2) -/

/-- Modelled from the spec: dot product of two embedding vectors
(the backend similarity engine is missing from the sources).
Zips the components; a length mismatch contributes nothing, matching
`dot(a, b)` on equal-length vectors. -/
def dotL : List ℝ → List ℝ → ℝ
  | x :: xs, y :: ys => x * y + dotL xs ys
  | _, _ => 0

/-- Modelled from the spec: Euclidean norm `norm(a) = sqrt(dot(a, a))`. -/
noncomputable def normL (v : List ℝ) : ℝ := Real.sqrt (dotL v v)

/-- Modelled from the spec: the small epsilon (`1e-6`) below which a
vector norm counts as near-zero / no-data. -/
noncomputable def eps : ℝ := 1 / 1000000

/-- Componentwise negation of a vector (used to state the `a == -b` claim). -/
def negL (v : List ℝ) : List ℝ := v.map (fun x => -x)

open Classical in
/-- Modelled from the spec: per-cell similarity score.  If either vector has
near-zero norm the cell is missing (`none`); otherwise the cosine similarity
`dot(a,b) / (norm(a) * norm(b))` is mapped into `[0,1]` via `(sim + 1) / 2`. -/
noncomputable def cellScore (a b : List ℝ) : Option ℝ :=
  if normL a < eps ∨ normL b < eps then none
  else some ((dotL a b / (normL a * normL b) + 1) / 2)

/-- An embedding grid: rows of cells, each cell an embedding vector. -/
abbrev EmbeddingGrid : Type := List (List (List ℝ))

/-- The (row, col) shape of a 2D grid: the list of row lengths. -/
def shape {α : Type} (g : List (List α)) : List ℕ := g.map List.length

/-- Modelled from the spec: one row of pairwise cell scores. -/
noncomputable def scoreRow (r1 r2 : List (List ℝ)) : List (Option ℝ) :=
  List.zipWith cellScore r1 r2

/-- Modelled from the spec: the full grid of pairwise cell scores. -/
noncomputable def scoreGrid (g1 g2 : EmbeddingGrid) : List (List (Option ℝ)) :=
  List.zipWith scoreRow g1 g2

/-- The non-missing scores of a similarity grid, in row-major order. -/
def scoresOf (g : List (List (Option ℝ))) : List ℝ :=
  (g.map (fun row => row.filterMap id)).flatten

/-- Summary statistics over the non-missing scores. -/
structure SimilarityStatistics where
  min : ℝ
  max : ℝ
  mean : ℝ
  std : ℝ

/-- Modelled from the spec: min, max, arithmetic mean and population
standard deviation of a list of scores; `none` (unavailable) when the
list is empty. -/
noncomputable def statsOf (l : List ℝ) : Option SimilarityStatistics :=
  match l with
  | [] => none
  | x :: xs =>
      some { min := xs.foldl Min.min x
             max := xs.foldl Max.max x
             mean := (x :: xs).sum / (x :: xs).length
             std := Real.sqrt ((((x :: xs).map
               (fun v => (v - (x :: xs).sum / (x :: xs).length) ^ 2)).sum)
               / (x :: xs).length) }

/-- The similarity engine error taxonomy relevant to `compute_similarity`. -/
inductive EngineError where
  | SHAPE_MISMATCH
deriving DecidableEq

/-- The result of a successful similarity computation: the score grid plus
statistics, the latter `none` exactly in the ALL_MISSING state. -/
structure SimilarityResult where
  grid : List (List (Option ℝ))
  stats : Option SimilarityStatistics

/-- Modelled from the spec: `compute_similarity` fails with `SHAPE_MISMATCH`
when the grid shapes differ, otherwise returns the score grid together with
statistics over the non-missing scores. -/
noncomputable def compute_similarity (g1 g2 : EmbeddingGrid) :
    Except EngineError SimilarityResult :=
  if shape g1 = shape g2 then
    .ok { grid := scoreGrid g1 g2, stats := statsOf (scoresOf (scoreGrid g1 g2)) }
  else
    .error .SHAPE_MISMATCH

/-! ## Basic lemmas about the dot product and norm -/

theorem dotL_nil_right (a : List ℝ) : dotL a [] = 0 := by
  cases a <;> rfl

theorem dotL_self_nonneg (a : List ℝ) : 0 ≤ dotL a a := by
  induction a with
  | nil => simp [dotL]
  | cons x xs ih =>
      have hx : 0 ≤ x * x := mul_self_nonneg x
      simpa [dotL] using add_nonneg hx ih

theorem dotL_comm (a b : List ℝ) : dotL a b = dotL b a := by
  induction a generalizing b with
  | nil => cases b <;> simp [dotL]
  | cons x xs ih =>
      cases b with
      | nil => simp [dotL]
      | cons y ys => simp [dotL, ih, mul_comm]

theorem dotL_neg_right (a b : List ℝ) : dotL a (negL b) = -(dotL a b) := by
  induction a generalizing b with
  | nil => cases b <;> simp [dotL, negL]
  | cons x xs ih =>
      cases b with
      | nil => simp [dotL, negL]
      | cons y ys =>
          have h : negL (y :: ys) = (-y) :: negL ys := rfl
          rw [h]
          simp only [dotL, ih ys]
          ring

theorem dotL_negL_negL (a b : List ℝ) : dotL (negL a) (negL b) = dotL a b := by
  induction a generalizing b with
  | nil => cases b <;> simp [dotL, negL]
  | cons x xs ih =>
      cases b with
      | nil => simp [dotL, negL]
      | cons y ys =>
          have h1 : negL (x :: xs) = (-x) :: negL xs := rfl
          have h2 : negL (y :: ys) = (-y) :: negL ys := rfl
          rw [h1, h2]
          simp only [dotL, ih ys]
          ring

theorem normL_nonneg (a : List ℝ) : 0 ≤ normL a := Real.sqrt_nonneg _

theorem normL_neg (a : List ℝ) : normL (negL a) = normL a := by
  unfold normL
  rw [dotL_negL_negL]

theorem eps_pos : (0 : ℝ) < eps := by norm_num [eps]

/-- Cauchy-Schwarz for the list dot product, squared form. -/
theorem dotL_sq_le (a b : List ℝ) : (dotL a b) ^ 2 ≤ dotL a a * dotL b b := by
  induction a generalizing b with
  | nil =>
      simp [dotL]
  | cons x xs ih =>
      cases b with
      | nil =>
          simp [dotL, dotL_nil_right]
      | cons y ys =>
          have hA : 0 ≤ dotL xs xs := dotL_self_nonneg xs
          have hB : 0 ≤ dotL ys ys := dotL_self_nonneg ys
          have hIH : (dotL xs ys) ^ 2 ≤ dotL xs xs * dotL ys ys := ih ys
          simp only [dotL]
          rcases eq_or_lt_of_le hA with hA0 | hApos
          · have hd : dotL xs ys = 0 := by
              have h1 : (dotL xs ys) ^ 2 ≤ 0 := by
                calc (dotL xs ys) ^ 2 ≤ dotL xs xs * dotL ys ys := hIH
                _ = 0 := by rw [← hA0]; ring
              have h2 : (0 : ℝ) ≤ (dotL xs ys) ^ 2 := sq_nonneg _
              have := le_antisymm h1 h2
              exact pow_eq_zero_iff (two_ne_zero) |>.mp this
            rw [hd, ← hA0]
            have hxB : 0 ≤ x * x * dotL ys ys :=
              mul_nonneg (mul_self_nonneg x) hB
            nlinarith [hxB]
          · nlinarith [sq_nonneg (x * dotL xs ys - dotL xs xs * y),
              mul_nonneg (sq_nonneg x) (sub_nonneg.mpr hIH),
              mul_nonneg (le_of_lt hApos) (sub_nonneg.mpr hIH)]

/-- Cauchy-Schwarz in the form `|dot a b| ≤ norm a * norm b`. -/
theorem abs_dotL_le (a b : List ℝ) : |dotL a b| ≤ normL a * normL b := by
  have h1 : |dotL a b| = Real.sqrt ((dotL a b) ^ 2) := (Real.sqrt_sq_eq_abs _).symm
  have h2 : normL a * normL b = Real.sqrt (dotL a a * dotL b b) := by
    rw [normL, normL, ← Real.sqrt_mul (dotL_self_nonneg a)]
  rw [h1, h2]
  exact Real.sqrt_le_sqrt (dotL_sq_le a b)

/-! ## Cell score lemmas -/

theorem cellScore_none {a b : List ℝ} (h : normL a < eps ∨ normL b < eps) :
    cellScore a b = none := by
  simp [cellScore, h]

theorem cellScore_some {a b : List ℝ} (ha : ¬ normL a < eps) (hb : ¬ normL b < eps) :
    cellScore a b = some ((dotL a b / (normL a * normL b) + 1) / 2) := by
  have h : ¬ (normL a < eps ∨ normL b < eps) := by
    intro h
    rcases h with h | h
    · exact ha h
    · exact hb h
  simp [cellScore, h]

theorem normL_pos_of_not_small {a : List ℝ} (ha : ¬ normL a < eps) : 0 < normL a :=
  lt_of_lt_of_le eps_pos (not_lt.mp ha)

theorem dotL_self_pos_of_not_small {a : List ℝ} (ha : ¬ normL a < eps) :
    0 < dotL a a := by
  have h := normL_pos_of_not_small ha
  by_contra hc
  push_neg at hc
  have h0 : dotL a a = 0 := le_antisymm hc (dotL_self_nonneg a)
  rw [normL, h0, Real.sqrt_zero] at h
  exact lt_irrefl 0 h

theorem cellScore_self {a : List ℝ} (ha : ¬ normL a < eps) :
    cellScore a a = some 1 := by
  rw [cellScore_some ha ha]
  have hd : 0 < dotL a a := dotL_self_pos_of_not_small ha
  have hn : normL a * normL a = dotL a a := Real.mul_self_sqrt (dotL_self_nonneg a)
  rw [hn, div_self (ne_of_gt hd)]
  norm_num

theorem cellScore_neg_self {a : List ℝ} (ha : ¬ normL a < eps) :
    cellScore a (negL a) = some 0 := by
  have hb : ¬ normL (negL a) < eps := by rw [normL_neg]; exact ha
  rw [cellScore_some ha hb, normL_neg, dotL_neg_right]
  have hd : 0 < dotL a a := dotL_self_pos_of_not_small ha
  have hn : normL a * normL a = dotL a a := Real.mul_self_sqrt (dotL_self_nonneg a)
  rw [hn, neg_div, div_self (ne_of_gt hd)]
  norm_num

theorem cellScore_bounds {a b : List ℝ} {s : ℝ} (h : cellScore a b = some s) :
    0 ≤ s ∧ s ≤ 1 := by
  by_cases hm : normL a < eps ∨ normL b < eps
  · rw [cellScore_none hm] at h
    exact absurd h (by simp)
  · obtain ⟨ha, hb⟩ := not_or.mp hm
    rw [cellScore_some ha hb] at h
    have hs : s = (dotL a b / (normL a * normL b) + 1) / 2 := by
      injection h.symm
    have hpa : 0 < normL a := normL_pos_of_not_small ha
    have hpb : 0 < normL b := normL_pos_of_not_small hb
    have hp : 0 < normL a * normL b := mul_pos hpa hpb
    have habs : |dotL a b| ≤ normL a * normL b := abs_dotL_le a b
    have hdiv : |dotL a b / (normL a * normL b)| ≤ 1 := by
      rw [abs_div, abs_of_pos hp]
      exact div_le_one_of_le₀ habs (le_of_lt hp)
    have hle := abs_le.mp hdiv
    constructor
    · rw [hs]; linarith [hle.1]
    · rw [hs]; linarith [hle.2]

theorem cellScore_comm (a b : List ℝ) : cellScore a b = cellScore b a := by
  unfold cellScore
  rw [dotL_comm, mul_comm (normL a) (normL b)]
  exact if_congr or_comm rfl rfl

/-! ## Shape and grid lemmas -/

theorem shape_eq_length {α : Type} {g1 g2 : List (List α)}
    (h : shape g1 = shape g2) : g1.length = g2.length := by
  have := congrArg List.length h
  simpa [shape] using this

theorem scoreGrid_shape {g1 g2 : EmbeddingGrid} (h : shape g1 = shape g2) :
    shape (scoreGrid g1 g2) = shape g1 := by
  induction g1 generalizing g2 with
  | nil => simp [scoreGrid, shape]
  | cons r1 t1 ih =>
      cases g2 with
      | nil => exact absurd h (by simp [shape])
      | cons r2 t2 =>
          have hlen : r1.length = r2.length := by
            have := congrArg (fun l => l.headI) h
            simpa [shape] using this
          have htail : shape t1 = shape t2 := by
            have := congrArg (fun l => l.tail) h
            simpa [shape] using this
          simp only [scoreGrid, List.zipWith_cons_cons, shape, List.map_cons,
            List.cons.injEq]
          refine ⟨by simp [scoreRow, hlen], ?_⟩
          have := ih htail
          simpa [scoreGrid, shape] using this

theorem mem_zipWith {α β γ : Type} {f : α → β → γ} {l1 : List α} {l2 : List β}
    {c : γ} (h : c ∈ List.zipWith f l1 l2) :
    ∃ a ∈ l1, ∃ b ∈ l2, c = f a b := by
  induction l1 generalizing l2 with
  | nil => simp at h
  | cons x xs ih =>
      cases l2 with
      | nil => simp at h
      | cons y ys =>
          rw [List.zipWith_cons_cons, List.mem_cons] at h
          rcases h with h | h
          · exact ⟨x, by simp, y, by simp, h⟩
          · obtain ⟨a, ha, b, hb, hab⟩ := ih h
            exact ⟨a, by simp [ha], b, by simp [hb], hab⟩

theorem mem_scoreGrid {g1 g2 : EmbeddingGrid} {row : List (Option ℝ)}
    {c : Option ℝ} (hrow : row ∈ scoreGrid g1 g2) (hc : c ∈ row) :
    ∃ a, (∃ r1 ∈ g1, a ∈ r1) ∧ ∃ b, (∃ r2 ∈ g2, b ∈ r2) ∧ c = cellScore a b := by
  obtain ⟨r1, hr1, r2, hr2, hrw⟩ := mem_zipWith hrow
  rw [hrw] at hc
  obtain ⟨a, ha, b, hb, hab⟩ := mem_zipWith hc
  exact ⟨a, ⟨r1, hr1, ha⟩, b, ⟨r2, hr2, hb⟩, hab⟩

theorem mem_scoresOf {g : List (List (Option ℝ))} {s : ℝ} :
    s ∈ scoresOf g ↔ ∃ row ∈ g, some s ∈ row := by
  constructor
  · intro h
    rw [scoresOf, List.mem_flatten] at h
    obtain ⟨l, hl, hs⟩ := h
    rw [List.mem_map] at hl
    obtain ⟨row, hrow, hrw⟩ := hl
    refine ⟨row, hrow, ?_⟩
    rw [← hrw] at hs
    rw [List.mem_filterMap] at hs
    obtain ⟨c, hc, hcs⟩ := hs
    simp only [id] at hcs
    rw [hcs] at hc
    exact hc
  · rintro ⟨row, hrow, hs⟩
    rw [scoresOf, List.mem_flatten]
    refine ⟨row.filterMap id, List.mem_map_of_mem _ hrow, ?_⟩
    rw [List.mem_filterMap]
    exact ⟨some s, hs, rfl⟩

theorem scoresOf_nil_of_all_none {g : List (List (Option ℝ))}
    (h : ∀ row ∈ g, ∀ c ∈ row, c = none) : scoresOf g = [] := by
  by_contra hne
  obtain ⟨s, hs⟩ := List.exists_mem_of_ne_nil _ hne
  obtain ⟨row, hrow, hsr⟩ := mem_scoresOf.mp hs
  have := h row hrow (some s) hsr
  exact Option.some_ne_none s this

theorem zipWith_comm_of_comm {α β : Type} (f : α → α → β)
    (hf : ∀ x y, f x y = f y x) :
    ∀ l1 l2 : List α, List.zipWith f l1 l2 = List.zipWith f l2 l1
  | [], [] => rfl
  | [], _ :: _ => rfl
  | _ :: _, [] => rfl
  | x :: xs, y :: ys => by
      rw [List.zipWith_cons_cons, List.zipWith_cons_cons, hf,
        zipWith_comm_of_comm f hf xs ys]

/-! ## Statistics lemmas -/

theorem foldl_min_le_start (x : ℝ) (xs : List ℝ) : xs.foldl Min.min x ≤ x := by
  induction xs generalizing x with
  | nil => simp
  | cons z zs ih =>
      calc zs.foldl Min.min (Min.min x z) ≤ Min.min x z := ih _
      _ ≤ x := min_le_left _ _

theorem foldl_min_le_mem {y : ℝ} (x : ℝ) (xs : List ℝ) (hy : y ∈ xs) :
    xs.foldl Min.min x ≤ y := by
  induction xs generalizing x with
  | nil => simp at hy
  | cons z zs ih =>
      rw [List.mem_cons] at hy
      rcases hy with h | h
      · subst h
        calc zs.foldl Min.min (Min.min x y) ≤ Min.min x y := foldl_min_le_start _ _
        _ ≤ y := min_le_right _ _
      · exact ih _ h

theorem foldl_min_mem (x : ℝ) (xs : List ℝ) : xs.foldl Min.min x ∈ x :: xs := by
  induction xs generalizing x with
  | nil => simp
  | cons z zs ih =>
      rw [List.foldl_cons]
      have h := ih (Min.min x z)
      rw [List.mem_cons] at h
      rcases h with h | h
      · rw [h]
        rcases min_choice x z with hc | hc
        · rw [hc]; exact List.mem_cons_self _ _
        · rw [hc]; exact List.mem_cons_of_mem _ (List.mem_cons_self _ _)
      · exact List.mem_cons_of_mem _ (List.mem_cons_of_mem _ h)

theorem le_foldl_max_start (x : ℝ) (xs : List ℝ) : x ≤ xs.foldl Max.max x := by
  induction xs generalizing x with
  | nil => simp
  | cons z zs ih =>
      calc x ≤ Max.max x z := le_max_left _ _
      _ ≤ zs.foldl Max.max (Max.max x z) := ih _

theorem mem_le_foldl_max {y : ℝ} (x : ℝ) (xs : List ℝ) (hy : y ∈ xs) :
    y ≤ xs.foldl Max.max x := by
  induction xs generalizing x with
  | nil => simp at hy
  | cons z zs ih =>
      rw [List.mem_cons] at hy
      rcases hy with h | h
      · subst h
        calc y ≤ Max.max x y := le_max_right _ _
        _ ≤ zs.foldl Max.max (Max.max x y) := le_foldl_max_start _ _
      · exact ih _ h

theorem foldl_max_mem (x : ℝ) (xs : List ℝ) : xs.foldl Max.max x ∈ x :: xs := by
  induction xs generalizing x with
  | nil => simp
  | cons z zs ih =>
      rw [List.foldl_cons]
      have h := ih (Max.max x z)
      rw [List.mem_cons] at h
      rcases h with h | h
      · rw [h]
        rcases max_choice x z with hc | hc
        · rw [hc]; exact List.mem_cons_self _ _
        · rw [hc]; exact List.mem_cons_of_mem _ (List.mem_cons_self _ _)
      · exact List.mem_cons_of_mem _ (List.mem_cons_of_mem _ h)

theorem mul_length_le_sum {m : ℝ} {l : List ℝ} (h : ∀ y ∈ l, m ≤ y) :
    m * l.length ≤ l.sum := by
  induction l with
  | nil => simp
  | cons z zs ih =>
      have hz : m ≤ z := h z (by simp)
      have hzs : m * zs.length ≤ zs.sum := ih (fun y hy => h y (by simp [hy]))
      simp only [List.sum_cons, List.length_cons]
      push_cast
      nlinarith

theorem sum_le_mul_length {M : ℝ} {l : List ℝ} (h : ∀ y ∈ l, y ≤ M) :
    l.sum ≤ M * l.length := by
  induction l with
  | nil => simp
  | cons z zs ih =>
      have hz : z ≤ M := h z (by simp)
      have hzs : zs.sum ≤ M * zs.length := ih (fun y hy => h y (by simp [hy]))
      simp only [List.sum_cons, List.length_cons]
      push_cast
      nlinarith

/-- The full statistics chain for a nonempty list of scores. -/
theorem statsOf_chain {l : List ℝ} (hne : l ≠ []) :
    ∃ st, statsOf l = some st ∧
      st.min ∈ l ∧ (∀ y ∈ l, st.min ≤ y) ∧
      st.max ∈ l ∧ (∀ y ∈ l, y ≤ st.max) ∧
      st.mean = l.sum / l.length ∧
      st.std = Real.sqrt (((l.map (fun v => (v - l.sum / l.length) ^ 2)).sum) / l.length) ∧
      st.min ≤ st.mean ∧ st.mean ≤ st.max := by
  cases l with
  | nil => exact absurd rfl hne
  | cons x xs =>
      refine ⟨_, rfl, ?_, ?_, ?_, ?_, rfl, rfl, ?_, ?_⟩
      · exact foldl_min_mem x xs
      · intro y hy
        rw [List.mem_cons] at hy
        rcases hy with h | h
        · subst h; exact foldl_min_le_start _ _
        · exact foldl_min_le_mem _ _ h
      · exact foldl_max_mem x xs
      · intro y hy
        rw [List.mem_cons] at hy
        rcases hy with h | h
        · subst h; exact le_foldl_max_start _ _
        · exact mem_le_foldl_max _ _ h
      · have hmin : ∀ y ∈ x :: xs, xs.foldl Min.min x ≤ y := by
          intro y hy
          rw [List.mem_cons] at hy
          rcases hy with h | h
          · subst h; exact foldl_min_le_start _ _
          · exact foldl_min_le_mem _ _ h
        have hlen : (0 : ℝ) < (x :: xs).length := by
          simp
          positivity
        have hsum := mul_length_le_sum hmin
        rw [le_div_iff₀ hlen]
        exact hsum
      · have hmax : ∀ y ∈ x :: xs, y ≤ xs.foldl Max.max x := by
          intro y hy
          rw [List.mem_cons] at hy
          rcases hy with h | h
          · subst h; exact le_foldl_max_start _ _
          · exact mem_le_foldl_max _ _ h
        have hlen : (0 : ℝ) < (x :: xs).length := by
          simp
          positivity
        have hsum := sum_le_mul_length hmax
        rw [div_le_iff₀ hlen]
        exact hsum

/-! ## Rendering / color mapping (modelled from the spec, section 4.3;
anchor colors are the magma stops shown in the legend of
`ui/src/app/map/page.tsx`). -/

/-- An RGB color with rational channels. -/
structure RGBc where
  r : ℚ
  g : ℚ
  b : ℚ
deriving DecidableEq

/-- A rendered pixel: a color plus an alpha channel (0 = fully transparent,
1 = opaque). -/
structure RGBAc where
  color : RGBc
  alpha : ℚ
deriving DecidableEq

/-- Modelled from the spec: the seven magma anchor colors of the color ramp,
as shown in the legend gradient of the map page
(`#000004, #2C105C, #711F81, #B63679, #EE605E, #FDAE78, #FCFDBF`). -/
def anchorColor : ℕ → RGBc
  | 0 => ⟨0, 0, 4⟩
  | 1 => ⟨44, 16, 92⟩
  | 2 => ⟨113, 31, 129⟩
  | 3 => ⟨182, 54, 121⟩
  | 4 => ⟨238, 96, 94⟩
  | 5 => ⟨253, 174, 120⟩
  | _ => ⟨252, 253, 191⟩

/-- Modelled from the spec: the anchor positions `p_i = i / 6`, evenly spaced
with `p_0 = 0` and `p_6 = 1` (the legend marks 0.0, 0.5 and 1.0). -/
def stopPos (i : ℕ) : ℚ := i / 6

/-- Linear interpolation of one channel. -/
def lerp (a b t : ℚ) : ℚ := a + (b - a) * t

/-- Linear interpolation of each RGB channel. -/
def lerpColor (c1 c2 : RGBc) (t : ℚ) : RGBc :=
  ⟨lerp c1.r c2.r t, lerp c1.g c2.g t, lerp c1.b c2.b t⟩

/-- Modelled from the spec: map a score `s` in `[0, 1]` to a color by finding
the enclosing anchor interval and interpolating linearly within it. -/
def colorFor (s : ℚ) : RGBc :=
  if s ≤ stopPos 1 then
    lerpColor (anchorColor 0) (anchorColor 1) ((s - stopPos 0) / (stopPos 1 - stopPos 0))
  else if s ≤ stopPos 2 then
    lerpColor (anchorColor 1) (anchorColor 2) ((s - stopPos 1) / (stopPos 2 - stopPos 1))
  else if s ≤ stopPos 3 then
    lerpColor (anchorColor 2) (anchorColor 3) ((s - stopPos 2) / (stopPos 3 - stopPos 2))
  else if s ≤ stopPos 4 then
    lerpColor (anchorColor 3) (anchorColor 4) ((s - stopPos 3) / (stopPos 4 - stopPos 3))
  else if s ≤ stopPos 5 then
    lerpColor (anchorColor 4) (anchorColor 5) ((s - stopPos 4) / (stopPos 5 - stopPos 4))
  else
    lerpColor (anchorColor 5) (anchorColor 6) ((s - stopPos 5) / (stopPos 6 - stopPos 5))

/-- Modelled from the spec: render one similarity cell; a missing cell is
fully transparent (alpha 0), a scored cell is the ramp color, opaque. -/
def renderCell : Option ℚ → RGBAc
  | none => ⟨⟨0, 0, 0⟩, 0⟩
  | some s => ⟨colorFor s, 1⟩

theorem lerpColor_zero (c1 c2 : RGBc) : lerpColor c1 c2 0 = c1 := by
  simp [lerpColor, lerp]

theorem lerpColor_one (c1 c2 : RGBc) : lerpColor c1 c2 1 = c2 := by
  simp [lerpColor, lerp]

/-! ## Request validation and pipeline (modelled from the spec,
sections 4.1, 6 and 7; the year range 2017-2024 also appears in the year
selectors of `ui/src/app/map/page.tsx`). -/

/-- A geographic bounding box in degrees. -/
structure Bounds where
  north : ℚ
  south : ℚ
  east : ℚ
  west : ℚ
deriving DecidableEq

/-- A similarity-heatmap request. -/
structure HeatmapRequest where
  bounds : Bounds
  reference_year : ℤ
  target_year : ℤ
deriving DecidableEq

/-- The error taxonomy of the response contract. -/
inductive ErrorType where
  | AUTHENTICATION_ERROR
  | CONNECTION_ERROR
  | VALIDATION_ERROR
  | SHAPE_MISMATCH
deriving DecidableEq

/-- Modelled from the spec: bounds are well-formed when `north > south` and
`east > west`. -/
def validBounds (b : Bounds) : Bool :=
  (b.south < b.north) && (b.west < b.east)

/-- Modelled from the spec: a year is supported when it lies in 2017-2024
inclusive. -/
def validYear (y : ℤ) : Bool :=
  (2017 ≤ y) && (y ≤ 2024)

/-- Modelled from the spec: request validation, performed before any
provider call. -/
def validRequest (rq : HeatmapRequest) : Bool :=
  validBounds rq.bounds && validYear rq.reference_year && validYear rq.target_year

/-- Modelled from the spec: the request pipeline.  Validation runs first;
only a valid request reaches the Embedding Provider (one fetch per year, no
retries), then the similarity engine.  The second component counts provider
calls so that "no provider call attempted" is observable. -/
noncomputable def handle_request
    (provider : Bounds → ℤ → Except ErrorType EmbeddingGrid)
    (rq : HeatmapRequest) :
    Except ErrorType SimilarityResult × ℕ :=
  if validRequest rq then
    match provider rq.bounds rq.reference_year with
    | .error e => (.error e, 1)
    | .ok g1 =>
        match provider rq.bounds rq.target_year with
        | .error e => (.error e, 2)
        | .ok g2 =>
            match compute_similarity g1 g2 with
            | .ok res => (.ok res, 2)
            | .error _ => (.error .SHAPE_MISMATCH, 2)
  else
    (.error .VALIDATION_ERROR, 0)

/-! ## Client error mapping, embedded from `ui/src/lib/earthengine.ts`
(`fetchSimilarityHeatmap`). -/

/-- Boolean test that the first list occurs at the start of the second. -/
def leadsWith : List Char → List Char → Bool
  | [], _ => true
  | _ :: _, [] => false
  | a :: as, b :: bs => a == b && leadsWith as bs

/-- Boolean substring occurrence test on character lists. -/
def hasSub (sub : List Char) : List Char → Bool
  | [] => leadsWith sub []
  | c :: cs => leadsWith sub (c :: cs) || hasSub sub cs

/-- JavaScript `String.prototype.includes`. -/
def strIncludes (s sub : String) : Bool := hasSub sub.data s.data

/-- JavaScript `x || dflt` on an optional string (absent and empty strings
are falsy). -/
def jsOrStr (s : Option String) (dflt : String) : String :=
  match s with
  | none => dflt
  | some v => if v = "" then dflt else v

/-- A backend API response body, as read dynamically by the client. -/
structure BackendResponse where
  success : Bool
  error : Option String
  error_type : Option String
  message : Option String
deriving DecidableEq

/-- The value `apiClient.makeRequest` resolves with: a transport-level error
string, or the parsed response body. -/
structure ApiResult where
  transportError : Option String
  data : Option BackendResponse
deriving DecidableEq

/-- The `EarthEngineError` interface of `ui/src/lib/earthengine.ts`. -/
structure EarthEngineError where
  success : Bool
  error : String
  message : String
  errorType : String
deriving DecidableEq

/-- The outcome of `fetchSimilarityHeatmap`: either data or an error object. -/
inductive FetchOutcome where
  | ok
  | fail (e : EarthEngineError)
deriving DecidableEq

/-- The transport-error mapping of `fetchSimilarityHeatmap`
(`ui/src/lib/earthengine.ts`, lines 116-142). -/
def mapTransportError (e : String) : EarthEngineError :=
  let isAuth := strIncludes e "Auth" || strIncludes e "auth"
  let userMessage :=
    if strIncludes e "timed out" then
      "Processing timed out - try a smaller area or different years"
    else if strIncludes e "cancelled" then
      "Request was cancelled"
    else if strIncludes e "Failed after" then
      "Multiple connection attempts failed - check network connection"
    else if isAuth then
      "Earth Engine authentication error"
    else
      "Failed to connect to Earth Engine API"
  let errType :=
    if strIncludes e "timed out" then "CONNECTION_ERROR"
    else if strIncludes e "cancelled" then "CONNECTION_ERROR"
    else if strIncludes e "Failed after" then "CONNECTION_ERROR"
    else if isAuth then "AUTHENTICATION_ERROR"
    else "CONNECTION_ERROR"
  { success := false, error := e, message := userMessage, errorType := errType }

/-- `fetchSimilarityHeatmap` from `ui/src/lib/earthengine.ts`, restricted to
its result handling: transport errors and service errors are both mapped to
an `EarthEngineError`; only a `success: true` body yields data. -/
def fetchSimilarityHeatmap (result : ApiResult) : FetchOutcome :=
  match result.transportError with
  | some e => .fail (mapTransportError e)
  | none =>
      match result.data with
      | none =>
          .fail { success := false, error := "Unknown error",
                  message := "Unknown error from Earth Engine service",
                  errorType := "CONNECTION_ERROR" }
      | some d =>
          if d.success then .ok
          else
            .fail { success := false, error := jsOrStr d.error "Unknown error",
                    message := jsOrStr d.message "Unknown error from Earth Engine service",
                    errorType := jsOrStr d.error_type "CONNECTION_ERROR" }

/-- The four error types of the response contract, as strings. -/
def specErrorTypes : List String :=
  ["AUTHENTICATION_ERROR", "CONNECTION_ERROR", "VALIDATION_ERROR", "SHAPE_MISMATCH"]

theorem mapTransportError_type (e : String) :
    (mapTransportError e).errorType ∈ specErrorTypes := by
  unfold mapTransportError
  dsimp only
  split_ifs <;> simp [specErrorTypes]

/-! ## Map page request state machine, embedded from
`ui/src/app/map/page.tsx` (`loadData`, lines 51-173). -/

/-- The `apiStatus` React state. -/
inductive ApiStatusT where
  | loading
  | success
  | error
deriving DecidableEq

/-- The component state touched by `loadData`: the loading flag, the API
status, the heatmap data (abstracted to an id), the last error, whether the
processing-timer interval is live, and the in-flight `AbortController`
(`some aborted?`) held in `currentRequest`. -/
structure PageState where
  isLoading : Bool
  apiStatus : ApiStatusT
  heatmapData : Option ℕ
  lastError : Option EarthEngineError
  timerActive : Bool
  currentRequest : Option Bool
deriving DecidableEq

/-- How the awaited `fetchSimilarityHeatmap` call ends: a resolved value
(data or error object), or a thrown exception (abort-like or not). -/
inductive FetchResult where
  | ok (d : ℕ)
  | fail (e : EarthEngineError)
  | thrown (abortLike : Bool)
deriving DecidableEq

/-- One awaited request: how the promise settles and whether this request's
abort signal fired before completion. -/
structure FetchEvent where
  result : FetchResult
  abortedDuring : Bool
deriving DecidableEq

/-- The synthetic error built in the `catch` branch of `loadData`. -/
def unexpectedError : EarthEngineError :=
  { success := false, error := "Unexpected error",
    message := "An unexpected error occurred while loading data",
    errorType := "CONNECTION_ERROR" }

/-- `loadData` from `ui/src/app/map/page.tsx`: the guard that skips when a
request is already in flight, the (no-op) abort of an already-aborted
previous controller, the pre-await state updates, the post-await dispatch on
the result with the aborted-signal early returns, and the `finally` block
that clears the timer always but resets the loading flag only when the
request was not aborted. -/
def loadData (s : PageState) (cancelPrevious : Bool) (ev : FetchEvent) : PageState :=
  if s.currentRequest = some false then
    s
  else
    let _ := cancelPrevious
    let ab := ev.abortedDuring
    let base : PageState :=
      { s with isLoading := true, apiStatus := .loading, timerActive := true, currentRequest := some ab }
    let afterTry : PageState :=
      match ev.result with
      | .thrown true => base
      | .thrown false =>
          { base with lastError := some unexpectedError, apiStatus := .error }
      | .ok d =>
          if ab then base
          else { base with heatmapData := some d, apiStatus := .success, lastError := none }
      | .fail e =>
          if ab then base
          else { base with lastError := some e, apiStatus := .error, heatmapData := none }
    if ab then { afterTry with timerActive := false }
    else { afterTry with isLoading := false, timerActive := false }

/-! ## Concrete evaluation helpers for witnesses -/

theorem normL_unit : normL [(1 : ℝ), 0] = 1 := by
  have h : dotL [(1 : ℝ), 0] [(1 : ℝ), 0] = 1 := by norm_num [dotL]
  rw [normL, h, Real.sqrt_one]

theorem unit_not_small : ¬ normL [(1 : ℝ), 0] < eps := by
  rw [normL_unit, eps]
  norm_num

theorem normL_zero_vec : normL [(0 : ℝ)] = 0 := by
  have h : dotL [(0 : ℝ)] [(0 : ℝ)] = 0 := by norm_num [dotL]
  rw [normL, h, Real.sqrt_zero]

/-! ## Claim theorems -/

/-- Claim C1: for a cell whose two vectors are both non-degenerate (norm not
below the epsilon threshold, the spec's reading of "non-zero"), the score is
`(dot(a,b)/(norm(a)*norm(b)) + 1) / 2`; the score of `(a, a)` is exactly 1
and the score of `(a, -a)` is exactly 0. -/
theorem C1_cosine_score_semantics :
    (∀ a b : List ℝ, ¬ normL a < eps → ¬ normL b < eps →
      cellScore a b = some ((dotL a b / (normL a * normL b) + 1) / 2)) ∧
    (∀ a : List ℝ, ¬ normL a < eps → cellScore a a = some 1) ∧
    (∀ a : List ℝ, ¬ normL a < eps → cellScore a (negL a) = some 0) :=
  ⟨fun _ _ ha hb => cellScore_some ha hb,
   fun _ ha => cellScore_self ha,
   fun _ ha => cellScore_neg_self ha⟩

theorem C1_witness :
    ¬ normL [(1 : ℝ), 0] < eps ∧
    cellScore [(1 : ℝ), 0] [(1 : ℝ), 0] = some 1 ∧
    cellScore [(1 : ℝ), 0] (negL [(1 : ℝ), 0]) = some 0 :=
  ⟨unit_not_small, C1_cosine_score_semantics.2.1 _ unit_not_small,
   C1_cosine_score_semantics.2.2 _ unit_not_small⟩

/-- Claim C2: for same-shape input grids, `compute_similarity` succeeds with a
similarity grid of identical shape, and every non-missing score lies in
`[0, 1]`. -/
theorem C2_shape_preserved_and_range :
    ∀ g1 g2 : EmbeddingGrid, shape g1 = shape g2 →
    ∃ r, compute_similarity g1 g2 = .ok r ∧ shape r.grid = shape g1 ∧
      ∀ row ∈ r.grid, ∀ s : ℝ, some s ∈ row → 0 ≤ s ∧ s ≤ 1 := by
  intro g1 g2 h
  refine ⟨⟨scoreGrid g1 g2, statsOf (scoresOf (scoreGrid g1 g2))⟩, ?_, ?_, ?_⟩
  · unfold compute_similarity
    rw [if_pos h]
  · exact scoreGrid_shape h
  · intro row hrow s hs
    obtain ⟨a, _, b, _, hab⟩ := mem_scoreGrid hrow hs
    exact cellScore_bounds hab.symm

theorem C2_witness :
    ∃ r, compute_similarity [[[(1 : ℝ), 0]]] [[[(1 : ℝ), 0]]] = .ok r ∧
      shape r.grid = shape [[[(1 : ℝ), 0]]] ∧
      ∀ row ∈ r.grid, ∀ s : ℝ, some s ∈ row → 0 ≤ s ∧ s ≤ 1 :=
  C2_shape_preserved_and_range _ _ rfl

/-- Claim C3: input grids of differing shape are rejected with
`SHAPE_MISMATCH`; no (partial) similarity grid is ever produced for them. -/
theorem C3_shape_mismatch_rejected :
    ∀ g1 g2 : EmbeddingGrid, shape g1 ≠ shape g2 →
      compute_similarity g1 g2 = .error .SHAPE_MISMATCH ∧
      ∀ r, compute_similarity g1 g2 ≠ .ok r := by
  intro g1 g2 h
  have he : compute_similarity g1 g2 = .error .SHAPE_MISMATCH := by
    unfold compute_similarity
    rw [if_neg h]
  refine ⟨he, ?_⟩
  intro r hc
  rw [he] at hc
  exact Except.noConfusion hc

theorem C3_witness :
    shape ([[[(1 : ℝ)]]] : EmbeddingGrid) ≠ shape ([] : EmbeddingGrid) ∧
    compute_similarity [[[(1 : ℝ)]]] [] = .error .SHAPE_MISMATCH := by
  have h : shape ([[[(1 : ℝ)]]] : EmbeddingGrid) ≠ shape ([] : EmbeddingGrid) := by
    simp [shape]
  exact ⟨h, (C3_shape_mismatch_rejected _ _ h).1⟩

/-- Claim C4: a cell where either vector has near-zero norm is missing
(`none`), and when every vector of both inputs is near-zero the whole result
is the ALL_MISSING state: every cell missing and statistics unavailable
(`none`), not zero. -/
theorem C4_missing_and_all_missing :
    (∀ a b : List ℝ, normL a < eps ∨ normL b < eps → cellScore a b = none) ∧
    (∀ g1 g2 : EmbeddingGrid, shape g1 = shape g2 →
      (∀ r1 ∈ g1, ∀ v ∈ r1, normL v < eps) →
      (∀ r2 ∈ g2, ∀ v ∈ r2, normL v < eps) →
      ∃ r, compute_similarity g1 g2 = .ok r ∧
        (∀ row ∈ r.grid, ∀ c ∈ row, c = none) ∧ r.stats = none) := by
  constructor
  · exact fun a b h => cellScore_none h
  · intro g1 g2 hsh h1 _h2
    have hall : ∀ row ∈ scoreGrid g1 g2, ∀ c ∈ row, c = none := by
      intro row hrow c hc
      obtain ⟨a, ⟨r1, hr1, har⟩, b, _, hab⟩ := mem_scoreGrid hrow hc
      rw [hab]
      exact cellScore_none (Or.inl (h1 r1 hr1 a har))
    refine ⟨⟨scoreGrid g1 g2, statsOf (scoresOf (scoreGrid g1 g2))⟩, ?_, hall, ?_⟩
    · unfold compute_similarity
      rw [if_pos hsh]
    · show statsOf (scoresOf (scoreGrid g1 g2)) = none
      rw [scoresOf_nil_of_all_none hall]
      rfl

theorem C4_witness : normL [(0 : ℝ)] < eps ∧
    ∃ r, compute_similarity [[[(0 : ℝ)]]] [[[(0 : ℝ)]]] = .ok r ∧
      (∀ row ∈ r.grid, ∀ c ∈ row, c = none) ∧ r.stats = none := by
  have hz : normL [(0 : ℝ)] < eps := by
    rw [normL_zero_vec]
    exact eps_pos
  have hcell : ∀ r1 ∈ ([[[(0 : ℝ)]]] : EmbeddingGrid), ∀ v ∈ r1, normL v < eps := by
    intro r1 hr1 v hv
    simp only [List.mem_singleton] at hr1
    subst hr1
    simp only [List.mem_singleton] at hv
    subst hv
    exact hz
  exact ⟨hz, C4_missing_and_all_missing.2 _ _ rfl hcell hcell⟩

/-- Claim C6: the similarity computation is symmetric in its two inputs:
`compute_similarity g1 g2` and `compute_similarity g2 g1` agree entirely
(cell-wise equal grids, including missing cells, hence equal statistics). -/
theorem C6_symmetry :
    ∀ g1 g2 : EmbeddingGrid, compute_similarity g1 g2 = compute_similarity g2 g1 := by
  intro g1 g2
  have hg : scoreGrid g1 g2 = scoreGrid g2 g1 :=
    zipWith_comm_of_comm scoreRow
      (fun r1 r2 => zipWith_comm_of_comm cellScore cellScore_comm r1 r2) g1 g2
  by_cases h : shape g1 = shape g2
  · unfold compute_similarity
    rw [if_pos h, if_pos h.symm, hg]
  · unfold compute_similarity
    rw [if_neg h, if_neg (fun hh => h hh.symm)]

/-- Claim C5: when the result has at least one non-missing cell, its
statistics are exactly the minimum, maximum, arithmetic mean and population
standard deviation over the non-missing scores (and nothing else), and they
satisfy `0 ≤ min ≤ mean ≤ max ≤ 1`. -/
theorem C5_statistics_over_nonmissing :
    ∀ (g1 g2 : EmbeddingGrid) (r : SimilarityResult),
      compute_similarity g1 g2 = .ok r →
      scoresOf r.grid ≠ [] →
      ∃ st, r.stats = some st ∧
        st.min ∈ scoresOf r.grid ∧ (∀ y ∈ scoresOf r.grid, st.min ≤ y) ∧
        st.max ∈ scoresOf r.grid ∧ (∀ y ∈ scoresOf r.grid, y ≤ st.max) ∧
        st.mean = (scoresOf r.grid).sum / (scoresOf r.grid).length ∧
        st.std = Real.sqrt
          ((((scoresOf r.grid).map (fun v => (v - st.mean) ^ 2)).sum)
            / (scoresOf r.grid).length) ∧
        (∀ s : ℝ, s ∈ scoresOf r.grid ↔ ∃ row ∈ r.grid, some s ∈ row) ∧
        0 ≤ st.min ∧ st.min ≤ st.mean ∧ st.mean ≤ st.max ∧ st.max ≤ 1 := by
  intro g1 g2 r hok hne
  have hr : r = ⟨scoreGrid g1 g2, statsOf (scoresOf (scoreGrid g1 g2))⟩ := by
    unfold compute_similarity at hok
    by_cases h : shape g1 = shape g2
    · rw [if_pos h] at hok
      injection hok with h1
      exact h1.symm
    · rw [if_neg h] at hok
      exact absurd hok (by simp)
  subst hr
  obtain ⟨st, hst, hminmem, hminle, hmaxmem, hmaxle, hmean, hstd, hchain1, hchain2⟩ :=
    statsOf_chain hne
  have hbound : ∀ y ∈ scoresOf (scoreGrid g1 g2), 0 ≤ y ∧ y ≤ 1 := by
    intro y hy
    obtain ⟨row, hrow, hyr⟩ := mem_scoresOf.mp hy
    obtain ⟨a, _, b, _, hab⟩ := mem_scoreGrid hrow hyr
    exact cellScore_bounds hab.symm
  refine ⟨st, hst, hminmem, hminle, hmaxmem, hmaxle, hmean, ?_, ?_, ?_, hchain1, hchain2, ?_⟩
  · rw [hstd, hmean]
  · intro s
    exact mem_scoresOf
  · exact (hbound _ hminmem).1
  · exact (hbound _ hmaxmem).2

theorem C5_witness :
    ∃ st, statsOf (scoresOf (scoreGrid [[[(1 : ℝ), 0]]] [[[(1 : ℝ), 0]]])) = some st ∧
      0 ≤ st.min ∧ st.min ≤ st.mean ∧ st.mean ≤ st.max ∧ st.max ≤ 1 := by
  have hgrid : scoreGrid [[[(1 : ℝ), 0]]] [[[(1 : ℝ), 0]]] = [[some 1]] := by
    unfold scoreGrid scoreRow
    rw [List.zipWith_cons_cons, List.zipWith_cons_cons]
    rw [cellScore_self unit_not_small]
    rfl
  have hne : scoresOf (scoreGrid [[[(1 : ℝ), 0]]] [[[(1 : ℝ), 0]]]) ≠ [] := by
    rw [hgrid]
    simp [scoresOf]
  have hok : compute_similarity [[[(1 : ℝ), 0]]] [[[(1 : ℝ), 0]]] =
      .ok ⟨scoreGrid [[[(1 : ℝ), 0]]] [[[(1 : ℝ), 0]]],
           statsOf (scoresOf (scoreGrid [[[(1 : ℝ), 0]]] [[[(1 : ℝ), 0]]]))⟩ := by
    unfold compute_similarity
    rw [if_pos rfl]
  obtain ⟨st, hst, _, _, _, _, _, _, _, hb1, hb2, hb3, hb4⟩ :=
    C5_statistics_over_nonmissing _ _ _ hok hne
  exact ⟨st, hst, hb1, hb2, hb3, hb4⟩

/-- Claim C7: the color mapping linearly interpolates each RGB channel within
the enclosing anchor interval using `t = (s - p_i) / (p_(i+1) - p_i)`;
mapping 0 gives exactly the first anchor color, mapping 1 exactly the last,
and a missing cell is rendered fully transparent (alpha 0, while scored
cells are opaque). -/
theorem C7_color_ramp :
    (∀ i : ℕ, i < 6 → ∀ s : ℚ, stopPos i ≤ s → s ≤ stopPos (i + 1) →
      colorFor s = lerpColor (anchorColor i) (anchorColor (i + 1))
        ((s - stopPos i) / (stopPos (i + 1) - stopPos i))) ∧
    colorFor 0 = anchorColor 0 ∧
    colorFor 1 = anchorColor 6 ∧
    (renderCell none).alpha = 0 ∧
    (∀ s : ℚ, (renderCell (some s)).alpha = 1) := by
  have hmain : ∀ i : ℕ, i < 6 → ∀ s : ℚ, stopPos i ≤ s → s ≤ stopPos (i + 1) →
      colorFor s = lerpColor (anchorColor i) (anchorColor (i + 1))
        ((s - stopPos i) / (stopPos (i + 1) - stopPos i)) := by
    intro i hi s h1 h2
    interval_cases i
    · unfold colorFor
      rw [if_pos h2]
    · have e1 : ¬ s ≤ stopPos 1 ∨ s = stopPos 1 := by
        rcases eq_or_lt_of_le h1 with hb | hb
        · exact Or.inr hb.symm
        · exact Or.inl (not_le.mpr hb)
      unfold colorFor
      rcases e1 with hb | hb
      · rw [if_neg hb, if_pos h2]
      · rw [if_pos (le_of_eq hb), hb]
        norm_num [stopPos, lerpColor, lerp, anchorColor]
    · have e1 : ¬ s ≤ stopPos 1 :=
        not_le.mpr (lt_of_lt_of_le (by norm_num [stopPos]) h1)
      unfold colorFor
      rw [if_neg e1]
      rcases le_or_lt s (stopPos 2) with hb | hb
      · have hs : s = stopPos 2 := le_antisymm hb h1
        rw [if_pos hb, hs]
        norm_num [stopPos, lerpColor, lerp, anchorColor]
      · rw [if_neg (not_le.mpr hb), if_pos h2]
    · have e1 : ¬ s ≤ stopPos 1 :=
        not_le.mpr (lt_of_lt_of_le (by norm_num [stopPos]) h1)
      have e2 : ¬ s ≤ stopPos 2 :=
        not_le.mpr (lt_of_lt_of_le (by norm_num [stopPos]) h1)
      unfold colorFor
      rw [if_neg e1, if_neg e2]
      rcases le_or_lt s (stopPos 3) with hb | hb
      · have hs : s = stopPos 3 := le_antisymm hb h1
        rw [if_pos hb, hs]
        norm_num [stopPos, lerpColor, lerp, anchorColor]
      · rw [if_neg (not_le.mpr hb), if_pos h2]
    · have e1 : ¬ s ≤ stopPos 1 :=
        not_le.mpr (lt_of_lt_of_le (by norm_num [stopPos]) h1)
      have e2 : ¬ s ≤ stopPos 2 :=
        not_le.mpr (lt_of_lt_of_le (by norm_num [stopPos]) h1)
      have e3 : ¬ s ≤ stopPos 3 :=
        not_le.mpr (lt_of_lt_of_le (by norm_num [stopPos]) h1)
      unfold colorFor
      rw [if_neg e1, if_neg e2, if_neg e3]
      rcases le_or_lt s (stopPos 4) with hb | hb
      · have hs : s = stopPos 4 := le_antisymm hb h1
        rw [if_pos hb, hs]
        norm_num [stopPos, lerpColor, lerp, anchorColor]
      · rw [if_neg (not_le.mpr hb), if_pos h2]
    · have e1 : ¬ s ≤ stopPos 1 :=
        not_le.mpr (lt_of_lt_of_le (by norm_num [stopPos]) h1)
      have e2 : ¬ s ≤ stopPos 2 :=
        not_le.mpr (lt_of_lt_of_le (by norm_num [stopPos]) h1)
      have e3 : ¬ s ≤ stopPos 3 :=
        not_le.mpr (lt_of_lt_of_le (by norm_num [stopPos]) h1)
      have e4 : ¬ s ≤ stopPos 4 :=
        not_le.mpr (lt_of_lt_of_le (by norm_num [stopPos]) h1)
      unfold colorFor
      rw [if_neg e1, if_neg e2, if_neg e3, if_neg e4]
      rcases le_or_lt s (stopPos 5) with hb | hb
      · have hs : s = stopPos 5 := le_antisymm hb h1
        rw [if_pos hb, hs]
        norm_num [stopPos, lerpColor, lerp, anchorColor]
      · rw [if_neg (not_le.mpr hb)]
  refine ⟨hmain, ?_, ?_, rfl, fun s => rfl⟩
  · have h := hmain 0 (by norm_num) 0 (by norm_num [stopPos]) (by norm_num [stopPos])
    rw [h]
    norm_num [stopPos, lerpColor, lerp, anchorColor]
  · have h := hmain 5 (by norm_num) 1 (by norm_num [stopPos]) (by norm_num [stopPos])
    rw [h]
    norm_num [stopPos, lerpColor, lerp, anchorColor]

theorem C7_witness :
    ((2 : ℕ) < 6 ∧ stopPos 2 ≤ (5 : ℚ)/12 ∧ (5 : ℚ)/12 ≤ stopPos 3) ∧
    colorFor ((5 : ℚ)/12) = lerpColor (anchorColor 2) (anchorColor 3)
      (((5 : ℚ)/12 - stopPos 2) / (stopPos 3 - stopPos 2)) := by
  refine ⟨⟨by norm_num, by norm_num [stopPos], by norm_num [stopPos]⟩, ?_⟩
  have h := C7_color_ramp.1 2 (by norm_num) ((5 : ℚ)/12)
    (by norm_num [stopPos]) (by norm_num [stopPos])
  simpa using h

/-- Claim C8: a request with malformed bounds (`north ≤ south` or
`east ≤ west`) or a year outside 2017-2024 yields `VALIDATION_ERROR` before
any Embedding Provider call (zero provider calls, hence also no retry and no
similarity computation), for every possible provider. -/
theorem C8_validation_before_provider :
    ∀ (provider : Bounds → ℤ → Except ErrorType EmbeddingGrid)
      (rq : HeatmapRequest),
      (rq.bounds.north ≤ rq.bounds.south ∨ rq.bounds.east ≤ rq.bounds.west ∨
       rq.reference_year < 2017 ∨ 2024 < rq.reference_year ∨
       rq.target_year < 2017 ∨ 2024 < rq.target_year) →
      handle_request provider rq = (.error .VALIDATION_ERROR, 0) := by
  intro provider rq h
  have hv : ¬ (validRequest rq = true) := by
    simp only [validRequest, validBounds, validYear, Bool.and_eq_true,
      decide_eq_true_eq]
    rintro ⟨⟨⟨hns, hwe⟩, ⟨hr1, hr2⟩⟩, ht1, ht2⟩
    rcases h with h | h | h | h | h | h
    · linarith
    · linarith
    · omega
    · omega
    · omega
    · omega
  unfold handle_request
  rw [if_neg hv]

theorem C8_witness :
    handle_request (fun _ _ => .error .CONNECTION_ERROR)
      ⟨⟨1, 0, 1, 0⟩, 2016, 2023⟩ = (.error .VALIDATION_ERROR, 0) := by
  apply C8_validation_before_provider
  right; right; left
  norm_num

/-- Claim C9: every failure observed by the client maps to an error object
with `success = false` and an `error_type` among the four values of the
contract (assuming, per the spec-modelled backend, that service failure
bodies carry one of those four types), and no failure is swallowed: the call
succeeds exactly when there was no transport error and the body says
`success: true`. -/
theorem C9_failure_shape :
    (∀ res : ApiResult,
      (res.transportError ≠ none ∨ res.data = none ∨
        ∃ d, res.data = some d ∧ d.success = false) →
      (∀ d et, res.data = some d → d.success = false → d.error_type = some et →
        et ∈ specErrorTypes) →
      ∃ e, fetchSimilarityHeatmap res = .fail e ∧ e.success = false ∧
        e.errorType ∈ specErrorTypes) ∧
    (∀ res : ApiResult, fetchSimilarityHeatmap res = .ok →
      res.transportError = none ∧ ∃ d, res.data = some d ∧ d.success = true) := by
  constructor
  · rintro ⟨te, da⟩ hfail hconf
    cases te with
    | some e =>
        exact ⟨mapTransportError e, rfl, rfl, mapTransportError_type e⟩
    | none =>
        cases da with
        | none =>
            refine ⟨_, rfl, rfl, ?_⟩
            simp [specErrorTypes]
        | some d =>
            cases hsucc : d.success with
            | true =>
                exfalso
                rcases hfail with h | h | ⟨d2, hd2, hs2⟩
                · exact h rfl
                · exact Option.noConfusion h
                · injection hd2 with hd2
                  rw [← hd2] at hs2
                  rw [hsucc] at hs2
                  exact Bool.noConfusion hs2
            | false =>
                refine ⟨⟨false, jsOrStr d.error "Unknown error", jsOrStr d.message "Unknown error from Earth Engine service", jsOrStr d.error_type "CONNECTION_ERROR"⟩, ?_, rfl, ?_⟩
                · simp only [fetchSimilarityHeatmap]
                  rw [if_neg (by rw [hsucc]; exact Bool.false_ne_true)]
                · show jsOrStr d.error_type "CONNECTION_ERROR" ∈ specErrorTypes
                  cases het : d.error_type with
                  | none => simp [jsOrStr, specErrorTypes]
                  | some et =>
                      by_cases he : et = ""
                      · simp [jsOrStr, he, specErrorTypes]
                      · have := hconf d et rfl hsucc het
                        simpa [jsOrStr, he] using this
  · rintro ⟨te, da⟩ hok
    cases te with
    | some e => exact FetchOutcome.noConfusion hok
    | none =>
        cases da with
        | none => exact FetchOutcome.noConfusion hok
        | some d =>
            cases hsucc : d.success with
            | true => exact ⟨rfl, d, rfl, hsucc⟩
            | false =>
                exfalso
                simp only [fetchSimilarityHeatmap] at hok
                rw [if_neg (by rw [hsucc]; exact Bool.false_ne_true)] at hok
                exact FetchOutcome.noConfusion hok

theorem C9_witness :
    ∃ e, fetchSimilarityHeatmap ⟨some "Auth failure", none⟩ = .fail e ∧
      e.success = false ∧ e.errorType ∈ specErrorTypes := by
  apply C9_failure_shape.1
  · left
    simp
  · intro d et hd
    exact absurd hd (by simp)

/-- Claim C10 is false as stated, at concrete inputs.  First conjunct: with a
request in flight (`currentRequest = some false`, not aborted), a new
`loadData` call with `cancelPrevious = true` leaves the state unchanged — it
is skipped by the in-progress guard and the previous request is NOT aborted.
Second and third conjuncts: a request whose signal is aborted before
completion leaves the loading flag set (`isLoading = true`) and the in-flight
controller in place (`currentRequest = some true`), so the pending operation
state is not fully cleared. -/
theorem C10_counterexample :
    loadData ⟨true, .loading, none, none, true, some false⟩ true ⟨.ok 7, false⟩
      = ⟨true, .loading, none, none, true, some false⟩ ∧
    (loadData ⟨false, .loading, none, none, false, none⟩ true
      ⟨.thrown true, true⟩).isLoading = true ∧
    (loadData ⟨false, .loading, none, none, false, none⟩ true
      ⟨.thrown true, true⟩).currentRequest = some true := by
  refine ⟨rfl, rfl, rfl⟩

/-- Claim C10 (amended): when a request that was allowed to start is aborted
before completion (its fetch resolves, fails, or throws an abort-like
exception), `loadData` never writes that request's response into the visible
state — the heatmap data and last error are unchanged and the status stays
`loading` — and the processing timer is cleared; however the loading flag
remains set and the aborted controller remains in `currentRequest` (only the
unmount cleanup clears them).  Moreover a `loadData` call made while a
request is in flight is skipped entirely rather than aborting the previous
request. -/
theorem C10_amended_cancellation :
    (∀ (s : PageState) (cp : Bool) (ev : FetchEvent),
      s.currentRequest ≠ some false →
      ev.abortedDuring = true →
      (∀ b, ev.result = .thrown b → b = true) →
      (loadData s cp ev).heatmapData = s.heatmapData ∧
      (loadData s cp ev).lastError = s.lastError ∧
      (loadData s cp ev).apiStatus = .loading ∧
      (loadData s cp ev).timerActive = false ∧
      (loadData s cp ev).isLoading = true ∧
      (loadData s cp ev).currentRequest = some true) ∧
    (∀ (s : PageState) (cp : Bool) (ev : FetchEvent),
      s.currentRequest = some false → loadData s cp ev = s) := by
  constructor
  · intro s cp ev hreq hab hth
    unfold loadData
    rw [if_neg hreq]
    rcases hres : ev.result with d | e | b
    · simp [hres, hab]
    · simp [hres, hab]
    · have hb := hth b hres
      subst hb
      simp [hres, hab]
  · intro s cp ev hreq
    unfold loadData
    rw [if_pos hreq]

theorem C10_witness :
    ((⟨false, .error, some 3, none, false, none⟩ : PageState).currentRequest
        ≠ some false) ∧
    (loadData ⟨false, .error, some 3, none, false, none⟩ true
      ⟨.fail unexpectedError, true⟩).heatmapData = some 3 ∧
    (loadData ⟨false, .error, some 3, none, false, none⟩ true
      ⟨.fail unexpectedError, true⟩).isLoading = true := by
  have h := C10_amended_cancellation.1 ⟨false, .error, some 3, none, false, none⟩
    true ⟨.fail unexpectedError, true⟩ (by simp) rfl
    (by intro b hb; exact absurd hb (by simp))
  exact ⟨by simp, h.1, h.2.2.2.2.1⟩
